import Mathlib

/-!
# Verification of the appstream-generator CI helper scripts

This development embeds the two Python helper scripts of the repository
(`contrib/girwrap/find-d-intf-files.py`, the *Path Discoverer*, and
`tests/ci/run-dscanner.py`, the *Lint Invoker*) as pure Lean functions and
proves the specified properties about them.

Modelling conventions:

* A filesystem is a listing of entries; each entry is an absolute path given
  as its list of `/`-separated components, together with a flag telling
  whether the entry is a directory.  Component strings are `/`-free and
  nonempty for well-formed listings.
* Environment variables and command-line arguments are strings; absolute
  root paths supplied through them are assumed normalized (no trailing
  slash, no repeated slashes), which is what the build orchestrator passes.
* Python string comparison (used by `sorted`) is comparison of the Unicode
  code point sequences; it is embedded by the executable `charListLe`
  comparator and proved equivalent to the lexicographic `String` order.
* Subprocess execution is modelled by a function `exec` from a command line
  to the exit code the external tool would return; the result object of an
  invocation is determined by the command and that code.
-/

/-- One filesystem entry: an absolute path (as components) and whether it is
a directory. -/
structure FSEntry where
  path : List String
  isDir : Bool
deriving DecidableEq, Repr

/-- A filesystem listing. -/
abbrev FS := List FSEntry

/-- Result of running one of the scripts: the lines it printed to standard
output and its exit status. -/
structure ProcResult where
  output : List String
  exitCode : Nat
deriving DecidableEq, Repr

/-! ## String infrastructure -/

/-- Code-point comparison of character sequences: the order Python uses on
strings.  Executable counterpart of the lexicographic list order. -/
def charListLe : List Char → List Char → Bool
  | [], _ => true
  | _ :: _, [] => false
  | a :: as, b :: bs =>
    if a < b then true
    else if b < a then false
    else charListLe as bs

/-- Python string `<=`: code-point lexicographic comparison. -/
def strLeB (s t : String) : Bool :=
  charListLe s.data t.data

/-- Whether a path component is hidden (starts with a dot); `glob` wildcard
components never match hidden names. -/
def startsWithDot (s : String) : Bool :=
  match s.data with
  | [] => false
  | c :: _ => c == '.'

/-- Executable `str.endswith` on strings. -/
def strEndsWith (s t : String) : Bool :=
  t.data.isSuffixOf s.data

/-- Executable `str.startswith` on strings. -/
def strStartsWith (s t : String) : Bool :=
  t.data.isPrefixOf s.data

/-- Split a character sequence at `/` characters. -/
def splitSlash : List Char → List (List Char)
  | [] => [[]]
  | c :: rest =>
    let r := splitSlash rest
    if c = '/' then [] :: r
    else
      match r with
      | [] => [[c]]
      | g :: gs => (c :: g) :: gs

/-- The components of a path string: split on `/` and drop empty pieces.
This is exactly what `os.path.relpath` does to its arguments
(`[x for x in path.split(sep) if x]`). -/
def pathComps (s : String) : List String :=
  ((splitSlash s.data).map (fun cs => String.mk cs)).filter (fun c => c ≠ "")

/-- Join components with `/` (Python `sep.join`). -/
def joinComps : List String → String
  | [] => ""
  | [c] => c
  | c :: rest => c ++ "/" ++ joinComps rest

/-- Render an absolute path from its components. -/
def renderAbs (p : List String) : String :=
  "/" ++ joinComps p

/-- Render the component form of a relative path; an empty component list
renders as `os.curdir`, exactly as in `os.path.relpath`. -/
def renderRel (p : List String) : String :=
  if p.isEmpty then "." else joinComps p

/-- Length of the longest common prefix of two component lists
(`os.path.commonprefix` on split paths). -/
def commonLen : List String → List String → Nat
  | a :: as, b :: bs => if a = b then commonLen as bs + 1 else 0
  | _, _ => 0

/-- Components of `os.path.relpath (renderAbs p) (renderAbs sr)`: step up
from `sr` to the common prefix, then follow the remainder of `p`. -/
def relpathComps (p sr : List String) : List String :=
  let i := commonLen p sr
  List.replicate (sr.length - i) ".." ++ p.drop i

/-! ## Path Discoverer (`contrib/girwrap/find-d-intf-files.py`) -/

/-- Whether an absolute path (components `p`) is matched by the recursive
glob `os.path.join(buildRoot, "girepo", "**", "*.d")`: it lies strictly
below `buildRoot/girepo`, no traversed component is hidden, and the file
name ends in `.d`. -/
def matchDIntf (buildRootComps p : List String) : Bool :=
  let g := buildRootComps ++ ["girepo"]
  let rest := p.drop g.length
  decide (p.take g.length = g) && !rest.isEmpty &&
    rest.all (fun c => !startsWithDot c) && strEndsWith (rest.getLastD "") ".d"

/-- The comparison `sorted` uses on the discovered absolute path strings. -/
def absLe (p q : List String) : Prop :=
  strLeB (renderAbs p) (renderAbs q) = true

instance : DecidableRel absLe := fun p q =>
  inferInstanceAs (Decidable (strLeB (renderAbs p) (renderAbs q) = true))

/-- Embeds `glob.glob(os.path.join(build_root, "girepo", "**", "*.d"), recursive=True)`:
the matching entries of the filesystem, in listing order. -/
def globDIntf (σ : FS) (buildRoot : String) : List (List String) :=
  (σ.filter (fun e => matchDIntf (pathComps buildRoot) e.path)).map FSEntry.path

/-- The loop body of the Discoverer: sort the matches and print each of them
relative to the source root. -/
def discovererOut (σ : FS) (buildRoot sourceRoot : String) : List String :=
  (List.insertionSort absLe (globDIntf σ buildRoot)).map
    (fun p => renderRel (relpathComps p (pathComps sourceRoot)))

/-- Diagnostic printed when the Meson environment variables are missing. -/
def mesonDiag : String :=
  "This script should only be run by the Meson build system."

/-- The whole `find-d-intf-files.py` script: `none` models an unset
environment variable. -/
def discovererRun (mesonBuildRoot mesonSourceRoot : Option String) (σ : FS) :
    ProcResult :=
  let b := mesonBuildRoot.getD ""
  let s := mesonSourceRoot.getD ""
  if b = "" ∨ s = "" then
    { output := [mesonDiag], exitCode := 1 }
  else
    { output := discovererOut σ b s, exitCode := 0 }

/-! ## Lint Invoker (`tests/ci/run-dscanner.py`) -/

/-- Embeds `os.path.join` for POSIX paths, two arguments. -/
def pyJoin (a b : String) : String :=
  if strStartsWith b "/" then b
  else if a = "" || strEndsWith a "/" then a ++ b
  else a ++ "/" ++ b

/-- Embeds `os.path.basename`: everything after the last `/`. -/
def basenameOf (s : String) : String :=
  String.mk ((s.data.reverse.takeWhile (fun c => c != '/')).reverse)

/-- Embeds `os.path.isdir` against the modelled filesystem. -/
def os_isdir (σ : FS) (s : String) : Bool :=
  σ.any (fun e => e.isDir && decide (e.path = pathComps s))

/-- The `BUILD_DIR_NAME` constant from the script. -/
def BUILD_DIR_NAME : String := "build"

/-- Whether a path is matched by the non-recursive glob
`source_root + "/contrib/subprojects/**/*"`.  Without `recursive=True` the
`**` wildcard behaves like `*`, so the pattern matches exactly the entries
two levels below the subprojects directory, with neither matched component
hidden. -/
def matchSubproj (sourceRootComps p : List String) : Bool :=
  let base := sourceRootComps ++ ["contrib", "subprojects"]
  decide (p.take base.length = base) && decide ((p.drop base.length).length = 2) &&
    (p.drop base.length).all (fun c => !startsWithDot c)

/-- The path string `glob.iglob` yields for a matched entry: the textual
root of the pattern followed by the matched components. -/
def subprojName (sourceRoot : String) (p : List String) : String :=
  sourceRoot ++ "/" ++ joinComps (p.drop (pathComps sourceRoot).length)

/-- Embeds `find_local_include_dirs` from `run-dscanner.py`: iterate the glob
matches and keep those whose base name is `src` or `source`. -/
def find_local_include_dirs (σ : FS) (source_root : String) : List String :=
  ((σ.filter (fun e => matchSubproj (pathComps source_root) e.path)).map
      (fun e => subprojName source_root e.path)).filter
    (fun fname => basenameOf fname == "src" || basenameOf fname == "source")

/-- The `extra_inc` list from the script. -/
def extra_inc : List String := ["glibd-2"]

/-- The two probed system prefixes from the script. -/
def incRoots : List String := ["/usr/include/d/", "/usr/local/include/d/"]

/-- The existence-probed system include candidates: for each runtime library
name and each prefix, keep the joined path when it is a directory. -/
def probedIncludeDirs (σ : FS) : List String :=
  extra_inc.flatMap (fun d =>
    incRoots.filterMap (fun inc_root =>
      let idir := pyJoin inc_root d
      if os_isdir σ idir then some idir else none))

/-- Matches of `glob.glob("/usr/lib/ldc/*/include/d/")`: the trailing slash
makes the glob yield directories only, rendered with a trailing slash. -/
def ldcMatch1 (p : List String) : Bool :=
  match p with
  | ["usr", "lib", "ldc", v, "include", "d"] => !startsWithDot v
  | _ => false

/-- Matches of `glob.glob("/usr/lib/ldc/*/include/d/ldc/")`. -/
def ldcMatch2 (p : List String) : Bool :=
  match p with
  | ["usr", "lib", "ldc", v, "include", "d", "ldc"] => !startsWithDot v
  | _ => false

/-- The LDC internal include directories found by the two fixed globs. -/
def ldcIncludeDirs (σ : FS) : List String :=
  ((σ.filter (fun e => e.isDir && ldcMatch1 e.path)).map
      (fun e => renderAbs e.path ++ "/")) ++
    ((σ.filter (fun e => e.isDir && ldcMatch2 e.path)).map
      (fun e => renderAbs e.path ++ "/"))

/-- Embeds `find_include_dirs` from `run-dscanner.py`: local candidates, the project
src directory, the probed system candidates, the LDC internals, the two
generated-output directories, all turned into `-I` flags. -/
def find_include_dirs (σ : FS) (source_root : String) : List String :=
  let incdirs := find_local_include_dirs σ source_root
  let incdirs := incdirs ++ [pyJoin source_root "src"]
  let incdirs := incdirs ++ probedIncludeDirs σ
  let incdirs := incdirs ++ ldcIncludeDirs σ
  let incdirs := incdirs ++
    [source_root ++ "/" ++ BUILD_DIR_NAME ++ "/girepo/",
     source_root ++ "/" ++ BUILD_DIR_NAME ++ "/src/"]
  incdirs.map (fun d => "-I" ++ d)

/-- Result of a Lint Invoker run: the subprocess command lines it executed,
its own printed lines, and its exit status. -/
structure LintResult where
  commands : List (List String)
  output : List String
  exitCode : Nat
deriving DecidableEq, Repr

/-- The banner printed at the top of `run`. -/
def dscannerBanner : List String :=
  ["===========================",
   "=       D-Scanner         =",
   "==========================="]

/-- The version-probe command line. -/
def versionProbeCmd : List String := ["dscanner", "--version"]

/-- The main dscanner command line assembled by `run`. -/
def dscannerCmd (σ : FS) (source_root dscanner_config : String) : List String :=
  ["dscanner", "--styleCheck", pyJoin source_root "src",
    "--config", dscanner_config] ++ find_include_dirs σ source_root

/-- Success indicator line. -/
def successLine : String := "\x1b[92m:) Success \x1b[0m"

/-- Failure indicator line. -/
def failureLine : String := "\x1b[91m:( D-Scanner found issues \x1b[0m"

/-- Rendering of the captured `CompletedProcess` result object (`print(pres)`),
determined by the command and its exit code. -/
def completedRepr (cmd : List String) (code : Int) : String :=
  "CompletedProcess(args=" ++ toString cmd ++ ", returncode=" ++ toString code ++ ")"

/-- The `run` function of `run-dscanner.py`.  `exec` models the external
tool: it maps an invoked command line to the exit code the subprocess
returns.  The version probe result is not bound by the script. -/
def lintRun (σ : FS) (source_root dscanner_config : String)
    (exec : List String → Int) : LintResult :=
  let _ := exec versionProbeCmd
  let cmd := dscannerCmd σ source_root dscanner_config
  let pres := exec cmd
  if pres = 0 then
    { commands := [versionProbeCmd, cmd],
      output := dscannerBanner ++ [successLine],
      exitCode := 0 }
  else
    { commands := [versionProbeCmd, cmd],
      output := dscannerBanner ++ [failureLine, completedRepr cmd pres],
      exitCode := 1 }

/-- Usage message printed when arguments are missing. -/
def lintUsage : String :=
  "Need at least source-root and dscanner configuration as parameters!"

/-- The `__main__` guard of `run-dscanner.py`; `argv` includes the program
name, as `sys.argv` does. -/
def lintMain (σ : FS) (argv : List String) (exec : List String → Int) :
    LintResult :=
  if argv.length < 3 then
    { commands := [], output := [lintUsage], exitCode := 1 }
  else
    lintRun σ (argv.getD 1 "") (argv.getD 2 "") exec

/-! ## The embedded string comparison agrees with the lexicographic order -/

theorem list_char_lt_iff (l m : List Char) : l < m ↔ List.Lex (· < ·) l m :=
  Iff.rfl

theorem not_cons_le_nil (a : Char) (as : List Char) :
    ¬ (a :: as ≤ ([] : List Char)) := fun h =>
  absurd (List.nil_lt_cons a as) (not_lt.mpr h)

theorem cons_le_cons_iff_char (a b : Char) (as bs : List Char) :
    a :: as ≤ b :: bs ↔ a < b ∨ (a = b ∧ as ≤ bs) := by
  constructor
  · intro h
    rcases lt_trichotomy a b with hab | hab | hab
    · exact Or.inl hab
    · subst hab
      refine Or.inr ⟨rfl, ?_⟩
      rw [← not_lt] at h ⊢
      intro hlt
      exact h ((list_char_lt_iff _ _).mpr
        (List.Lex.cons ((list_char_lt_iff _ _).mp hlt)))
    · exfalso
      rw [← not_lt] at h
      exact h ((list_char_lt_iff _ _).mpr (List.Lex.rel hab))
  · rintro (hab | ⟨rfl, h⟩)
    · exact le_of_lt ((list_char_lt_iff _ _).mpr (List.Lex.rel hab))
    · exact List.cons_le_cons a h

theorem charListLe_iff : ∀ (l m : List Char), charListLe l m = true ↔ l ≤ m
  | [], m => by simp [charListLe, List.nil_le]
  | a :: as, [] => by
    simp only [charListLe, Bool.false_eq_true, false_iff]
    exact not_cons_le_nil a as
  | a :: as, b :: bs => by
    rw [cons_le_cons_iff_char]
    simp only [charListLe]
    rcases lt_trichotomy a b with hab | hab | hab
    · rw [if_pos hab]
      simp only [true_iff]
      exact Or.inl hab
    · subst hab
      rw [if_neg (lt_irrefl a), if_neg (lt_irrefl a)]
      rw [charListLe_iff as bs]
      constructor
      · exact fun h => Or.inr ⟨rfl, h⟩
      · rintro (h | ⟨-, h⟩)
        · exact absurd h (lt_irrefl a)
        · exact h
    · have h1 : ¬ a < b := not_lt.mpr (le_of_lt hab)
      rw [if_neg h1, if_pos hab]
      simp only [Bool.false_eq_true, false_iff]
      rintro (h | ⟨rfl, -⟩)
      · exact absurd h (lt_asymm hab)
      · exact absurd hab (lt_irrefl a)

theorem strLeB_iff (s t : String) : strLeB s t = true ↔ s ≤ t := by
  rw [String.le_iff_toList_le]
  exact charListLe_iff s.data t.data

instance : IsTotal (List String) absLe :=
  ⟨fun p q => by
    unfold absLe
    rcases le_total (renderAbs p) (renderAbs q) with h | h
    · exact Or.inl ((strLeB_iff _ _).mpr h)
    · exact Or.inr ((strLeB_iff _ _).mpr h)⟩

instance : IsTrans (List String) absLe :=
  ⟨fun _ _ _ hpq hqr =>
    (strLeB_iff _ _).mpr
      (le_trans ((strLeB_iff _ _).mp hpq) ((strLeB_iff _ _).mp hqr))⟩

theorem lex_append_left_iff {r : Char → Char → Prop} [IsIrrefl Char r] :
    ∀ (x s t : List Char), List.Lex r (x ++ s) (x ++ t) ↔ List.Lex r s t
  | [], _, _ => Iff.rfl
  | a :: x, s, t => by
    simp only [List.cons_append]
    rw [List.Lex.cons_iff]
    exact lex_append_left_iff x s t

theorem string_append_le_iff (x s t : String) : x ++ s ≤ x ++ t ↔ s ≤ t := by
  rw [String.le_iff_toList_le, String.le_iff_toList_le]
  show (x ++ s).data ≤ (x ++ t).data ↔ s.data ≤ t.data
  rw [String.data_append, String.data_append]
  constructor
  · intro h
    rw [← not_lt] at h ⊢
    intro hlt
    exact h ((list_char_lt_iff _ _).mpr
      ((lex_append_left_iff x.data t.data s.data).mpr ((list_char_lt_iff _ _).mp hlt)))
  · intro h
    rw [← not_lt] at h ⊢
    intro hlt
    exact h ((list_char_lt_iff _ _).mp
      ((lex_append_left_iff x.data t.data s.data).mp ((list_char_lt_iff _ _).mp hlt))
        |> fun hl => (list_char_lt_iff _ _).mpr hl)

/-- The last character of a string, if any. -/
def lastChar (s : String) : Option Char :=
  s.data.getLast?

theorem lastChar_append (a b : String) (hb : b.data ≠ []) :
    lastChar (a ++ b) = lastChar b := by
  unfold lastChar
  rw [String.data_append]
  exact List.getLast?_append_of_ne_nil a.data hb

/-! ## Structural lemmas about paths and relative-path rewriting -/

theorem renderRel_ne_nil : ∀ (l : List String), l ≠ [] → renderRel l = joinComps l
  | [], h => absurd rfl h
  | _ :: _, _ => rfl

theorem joinComps_cons (a : String) (u : List String) (hu : u ≠ []) :
    joinComps (a :: u) = a ++ "/" ++ joinComps u := by
  cases u with
  | nil => exact absurd rfl hu
  | cons b us => rfl

theorem joinComps_append (c u : List String) (hc : c ≠ []) (hu : u ≠ []) :
    joinComps (c ++ u) = joinComps c ++ "/" ++ joinComps u := by
  induction c with
  | nil => exact absurd rfl hc
  | cons a c ih =>
    cases c with
    | nil =>
      show joinComps (a :: u) = joinComps [a] ++ "/" ++ joinComps u
      rw [joinComps_cons a u hu]
      rfl
    | cons b cs =>
      rw [List.cons_append, joinComps_cons a ((b :: cs) ++ u) (by simp),
        joinComps_cons a (b :: cs) (by simp), ih (by simp)]
      simp only [String.append_assoc]

theorem joinComps_append_le_iff (c u v : List String) (hu : u ≠ []) (hv : v ≠ []) :
    (joinComps (c ++ u) ≤ joinComps (c ++ v) ↔ joinComps u ≤ joinComps v) := by
  cases c with
  | nil => simp
  | cons a cs =>
    rw [joinComps_append (a :: cs) u (by simp) hu,
      joinComps_append (a :: cs) v (by simp) hv]
    exact string_append_le_iff (joinComps (a :: cs) ++ "/") (joinComps u) (joinComps v)

theorem commonLen_le_left : ∀ (a b : List String), commonLen a b ≤ a.length
  | [], _ => Nat.zero_le _
  | _ :: _, [] => Nat.zero_le _
  | a :: as, b :: bs => by
    simp only [commonLen]
    split
    · exact Nat.succ_le_succ (commonLen_le_left as bs)
    · exact Nat.zero_le _

theorem commonLen_append (u : List String) :
    ∀ (g s : List String),
      ¬ (s.take g.length = g ∧ g.length < s.length) →
      commonLen (g ++ u) s = commonLen g s := by
  intro g
  induction g with
  | nil =>
    intro s h
    have hs : s = [] := by
      cases s with
      | nil => rfl
      | cons b bs => exact absurd ⟨rfl, by simp⟩ h
    subst hs
    cases u <;> rfl
  | cons a g ih =>
    intro s h
    cases s with
    | nil => rfl
    | cons b s =>
      simp only [List.cons_append, commonLen, List.append_eq]
      by_cases hab : a = b
      · subst hab
        have h2 : ¬ (s.take g.length = g ∧ g.length < s.length) := by
          rintro ⟨h21, h22⟩
          exact h ⟨by simp [List.take_succ_cons, h21], Nat.succ_lt_succ h22⟩
        rw [if_pos rfl, if_pos rfl, ih s h2]
      · rw [if_neg hab, if_neg hab]

theorem drop_append_of_le {α : Type} (g u : List α) (n : Nat) (h : n ≤ g.length) :
    (g ++ u).drop n = g.drop n ++ u := by
  rw [List.drop_append_eq_append_drop, Nat.sub_eq_zero_of_le h, List.drop_zero]

/-- Monotonicity of relative-path rewriting for two matched files, provided
the source root does not point strictly below the common `girepo` prefix. -/
theorem relpath_mono (g srC u v : List String) (hu : u ≠ []) (hv : v ≠ [])
    (hns : ¬ (srC.take g.length = g ∧ g.length < srC.length))
    (habs : strLeB (renderAbs (g ++ u)) (renderAbs (g ++ v)) = true) :
    renderRel (relpathComps (g ++ u) srC) ≤ renderRel (relpathComps (g ++ v) srC) := by
  have hL : commonLen g srC ≤ g.length := commonLen_le_left g srC
  have hcu : commonLen (g ++ u) srC = commonLen g srC := commonLen_append u g srC hns
  have hcv : commonLen (g ++ v) srC = commonLen g srC := commonLen_append v g srC hns
  have hju : joinComps u ≤ joinComps v := by
    have h1 : renderAbs (g ++ u) ≤ renderAbs (g ++ v) := (strLeB_iff _ _).mp habs
    unfold renderAbs at h1
    have h2 : joinComps (g ++ u) ≤ joinComps (g ++ v) :=
      (string_append_le_iff "/" _ _).mp h1
    exact (joinComps_append_le_iff g u v hu hv).mp h2
  simp only [relpathComps]
  rw [hcu, hcv]
  rw [drop_append_of_le g u _ hL, drop_append_of_le g v _ hL]
  rw [← List.append_assoc, ← List.append_assoc]
  set C₀ := List.replicate (srC.length - commonLen g srC) ".." ++ g.drop (commonLen g srC)
  rw [renderRel_ne_nil (C₀ ++ u) (by simp [hu]), renderRel_ne_nil (C₀ ++ v) (by simp [hv])]
  exact (joinComps_append_le_iff C₀ u v hu hv).mpr hju

/-- Shape of a path matched by the `girepo/**/*.d` glob. -/
theorem matchDIntf_shape (bC p : List String) (h : matchDIntf bC p = true) :
    ∃ u, u ≠ [] ∧ p = (bC ++ ["girepo"]) ++ u := by
  unfold matchDIntf at h
  simp only [Bool.and_eq_true, decide_eq_true_eq, Bool.not_eq_true'] at h
  obtain ⟨⟨⟨htake, hne⟩, -⟩, -⟩ := h
  refine ⟨p.drop (bC ++ ["girepo"]).length, ?_, ?_⟩
  · intro hnil
    rw [hnil] at hne
    simp at hne
  · conv_lhs => rw [← List.take_append_drop (bC ++ ["girepo"]).length p]
    rw [htake]

theorem pairwise_map_mono {α β : Type} {R : α → α → Prop} {S : β → β → Prop}
    (f : α → β) (M : α → Prop) (l : List α) (hp : List.Pairwise R l)
    (hm : ∀ a ∈ l, M a) (himp : ∀ a b, M a → M b → R a b → S (f a) (f b)) :
    List.Pairwise S (l.map f) := by
  rw [List.pairwise_map]
  refine hp.imp_of_mem ?_
  intro a b ha hb hr
  exact himp a b (hm a ha) (hm b hb) hr

/-! ## Path Discoverer theorems -/

theorem discovererRun_ok (σ : FS) (b s : String) (hb : b ≠ "") (hs : s ≠ "") :
    discovererRun (some b) (some s) σ =
      { output := discovererOut σ b s, exitCode := 0 } := by
  simp only [discovererRun, Option.getD_some]
  rw [if_neg]
  rintro (h | h)
  · exact hb h
  · exact hs h

/-- Claim C1: with both environment variables set and non-empty, the Discoverer
exits 0 and prints exactly the `girepo/**/*.d` glob matches, sorted by their
absolute path string and each rewritten relative to the source root — also
when the match set is empty.  The printed lines are characterised: a line is
printed iff some filesystem entry matches the glob and rewrites to it. -/
theorem C1_discoverer_contract (σ : FS) (b s : String) (hb : b ≠ "") (hs : s ≠ "") :
    (discovererRun (some b) (some s) σ).exitCode = 0 ∧
    (discovererRun (some b) (some s) σ).output =
      (List.insertionSort absLe (globDIntf σ b)).map
        (fun p => renderRel (relpathComps p (pathComps s))) ∧
    List.Pairwise absLe (List.insertionSort absLe (globDIntf σ b)) ∧
    ∀ line : String, line ∈ (discovererRun (some b) (some s) σ).output ↔
      ∃ e ∈ σ, matchDIntf (pathComps b) e.path = true ∧
        line = renderRel (relpathComps e.path (pathComps s)) := by
  rw [discovererRun_ok σ b s hb hs]
  refine ⟨rfl, rfl, List.sorted_insertionSort absLe _, ?_⟩
  intro line
  show line ∈ discovererOut σ b s ↔ _
  unfold discovererOut
  rw [List.mem_map]
  constructor
  · rintro ⟨p, hp, rfl⟩
    rw [List.mem_insertionSort] at hp
    unfold globDIntf at hp
    rw [List.mem_map] at hp
    obtain ⟨e, he, rfl⟩ := hp
    rw [List.mem_filter] at he
    exact ⟨e, he.1, he.2, rfl⟩
  · rintro ⟨e, he, hm, rfl⟩
    refine ⟨e.path, ?_, rfl⟩
    rw [List.mem_insertionSort]
    unfold globDIntf
    rw [List.mem_map]
    exact ⟨e, List.mem_filter.mpr ⟨he, hm⟩, rfl⟩

/-- Witness for C1 at concrete inputs, including the empty-match case. -/
theorem C1_discoverer_contract_witness :
    (discovererRun (some "/b") (some "/s")
        [⟨["b", "girepo", "x.d"], false⟩]).exitCode = 0 ∧
    (discovererRun (some "/b") (some "/s")
        [⟨["b", "girepo", "x.d"], false⟩]).output = ["../b/girepo/x.d"] ∧
    (discovererRun (some "/b") (some "/s") ([] : FS)).exitCode = 0 ∧
    (discovererRun (some "/b") (some "/s") ([] : FS)).output = [] :=
  ⟨(C1_discoverer_contract [⟨["b", "girepo", "x.d"], false⟩] "/b" "/s"
      (by decide) (by decide)).1,
   by decide,
   (C1_discoverer_contract ([] : FS) "/b" "/s" (by decide) (by decide)).1,
   by decide⟩

/-- Claim C6: if either Meson environment variable is unset (`none`) or empty,
the Discoverer prints only the diagnostic line and exits 1; the result does
not depend on the filesystem at all. -/
theorem C6_missing_env_fatal (envB envS : Option String) (σ : FS)
    (h : envB.getD "" = "" ∨ envS.getD "" = "") :
    discovererRun envB envS σ = { output := [mesonDiag], exitCode := 1 } := by
  simp only [discovererRun]
  rw [if_pos h]

/-- Witness for C6: unset build root, and empty source root. -/
theorem C6_missing_env_fatal_witness :
    discovererRun none (some "/s") [⟨["b", "girepo", "x.d"], false⟩] =
        { output := [mesonDiag], exitCode := 1 } ∧
    discovererRun (some "/b") (some "") [] =
        { output := [mesonDiag], exitCode := 1 } :=
  ⟨C6_missing_env_fatal none (some "/s") [⟨["b", "girepo", "x.d"], false⟩]
      (Or.inl rfl),
   C6_missing_env_fatal (some "/b") (some "") [] (Or.inr rfl)⟩

/-- The filesystem of the C8 counterexample: two matched interface files,
one directly in `girepo` and one in a subdirectory whose name starts with a
character smaller than the dot. -/
def cexFS : FS :=
  [⟨["b", "girepo", "a.d"], false⟩, ⟨["b", "girepo", "sub", "!x.d"], false⟩]

/-- Claim C8, counterexample: with source root `/b/girepo/sub` — a directory
strictly inside the `girepo` tree — the Discoverer prints
`["../a.d", "!x.d"]`, which is *not* non-decreasing under lexicographic
string order (`..` starts with `.`, code point 46, while `!` is 33), even
though the absolute paths were sorted before rewriting. -/
theorem C8_sorted_output_counterexample :
    ¬ List.Pairwise (fun x y : String => x ≤ y)
      (discovererRun (some "/b") (some "/b/girepo/sub") cexFS).output := by
  intro h
  have houtput : (discovererRun (some "/b") (some "/b/girepo/sub") cexFS).output
      = ["../a.d", "!x.d"] := by decide
  rw [houtput] at h
  have h2 : ("../a.d" : String) ≤ "!x.d" :=
    (List.pairwise_cons.mp h).1 "!x.d" (List.mem_singleton.mpr rfl)
  have h3 : strLeB "../a.d" "!x.d" = true := (strLeB_iff _ _).mpr h2
  have h4 : strLeB "../a.d" "!x.d" = false := by decide
  rw [h3] at h4
  exact Bool.noConfusion h4

/-- Claim C8, amended: the printed sequence is non-decreasing under
lexicographic string order provided the source root does not point strictly
below the `girepo` directory of the build root (in particular whenever the
source root is outside the build output, the intended configuration). -/
theorem C8_sorted_output (σ : FS) (b s : String) (hb : b ≠ "") (hs : s ≠ "")
    (hns : ¬ ((pathComps s).take (pathComps b ++ ["girepo"]).length =
          pathComps b ++ ["girepo"] ∧
        (pathComps b ++ ["girepo"]).length < (pathComps s).length)) :
    List.Pairwise (fun x y : String => x ≤ y)
      (discovererRun (some b) (some s) σ).output := by
  rw [discovererRun_ok σ b s hb hs]
  show List.Pairwise _ (discovererOut σ b s)
  unfold discovererOut
  have hsorted : List.Pairwise absLe (List.insertionSort absLe (globDIntf σ b)) :=
    List.sorted_insertionSort absLe _
  have hmem : ∀ p ∈ List.insertionSort absLe (globDIntf σ b),
      ∃ u, u ≠ [] ∧ p = (pathComps b ++ ["girepo"]) ++ u := by
    intro p hp
    rw [List.mem_insertionSort] at hp
    unfold globDIntf at hp
    rw [List.mem_map] at hp
    obtain ⟨e, he, rfl⟩ := hp
    rw [List.mem_filter] at he
    exact matchDIntf_shape (pathComps b) e.path he.2
  refine pairwise_map_mono _ (fun p => ∃ u, u ≠ [] ∧ p = (pathComps b ++ ["girepo"]) ++ u)
    _ hsorted hmem ?_
  rintro p q ⟨u, hu, rfl⟩ ⟨v, hv, rfl⟩ hr
  exact relpath_mono (pathComps b ++ ["girepo"]) (pathComps s) u v hu hv hns hr

/-- Witness for the amended C8: a sibling source root, two matched files in
distinct subdirectories, sorted output. -/
theorem C8_sorted_output_witness :
    List.Pairwise (fun x y : String => x ≤ y)
      (discovererRun (some "/b") (some "/s") cexFS).output :=
  C8_sorted_output cexFS "/b" "/s" (by decide) (by decide) (by decide)

/-! ## Lint Invoker theorems -/

/-- Claim C2: the Lint Invoker terminates with status 0 and prints the success
indicator when the main subprocess exits 0, and terminates with status 1
printing the failure indicator plus the captured result object for every
non-zero exit code. -/
theorem C2_exit_code_propagation (σ : FS) (sr cfg : String)
    (exec : List String → Int) :
    (exec (dscannerCmd σ sr cfg) = 0 →
      lintRun σ sr cfg exec =
        { commands := [versionProbeCmd, dscannerCmd σ sr cfg],
          output := dscannerBanner ++ [successLine],
          exitCode := 0 }) ∧
    (exec (dscannerCmd σ sr cfg) ≠ 0 →
      lintRun σ sr cfg exec =
        { commands := [versionProbeCmd, dscannerCmd σ sr cfg],
          output := dscannerBanner ++
            [failureLine,
             completedRepr (dscannerCmd σ sr cfg) (exec (dscannerCmd σ sr cfg))],
          exitCode := 1 }) := by
  constructor
  · intro h
    simp only [lintRun]
    rw [if_pos h]
  · intro h
    simp only [lintRun]
    rw [if_neg h]

/-- Witness for C2: a stub tool exiting 0 yields exit 0; a stub exiting 2
yields exit 1. -/
theorem C2_exit_code_propagation_witness :
    (lintRun [] "/r" "cfg" (fun _ => 0)).exitCode = 0 ∧
    (lintRun [] "/r" "cfg" (fun _ => 2)).exitCode = 1 := by
  constructor
  · rw [(C2_exit_code_propagation [] "/r" "cfg" (fun _ => 0)).1 rfl]
  · rw [(C2_exit_code_propagation [] "/r" "cfg" (fun _ => 2)).2 (by decide)]

/-- Claim C3: for every filesystem state, the include-flag list contains the
flag for the project `src` directory and the flags for the two build-output
subdirectories, whether or not any of them exists on disk. -/
theorem C3_unconditional_candidates (σ : FS) (sr : String) :
    ("-I" ++ pyJoin sr "src") ∈ find_include_dirs σ sr ∧
    ("-I" ++ (sr ++ "/" ++ BUILD_DIR_NAME ++ "/girepo/")) ∈ find_include_dirs σ sr ∧
    ("-I" ++ (sr ++ "/" ++ BUILD_DIR_NAME ++ "/src/")) ∈ find_include_dirs σ sr := by
  unfold find_include_dirs
  refine ⟨?_, ?_, ?_⟩ <;> rw [List.mem_map]
  · exact ⟨pyJoin sr "src", by simp, rfl⟩
  · exact ⟨sr ++ "/" ++ BUILD_DIR_NAME ++ "/girepo/", by simp, rfl⟩
  · exact ⟨sr ++ "/" ++ BUILD_DIR_NAME ++ "/src/", by simp, rfl⟩

/-- Claim C7: fewer than two positional arguments (i.e. `sys.argv` shorter
than three entries) is a fatal usage error: the usage line is printed, no
subprocess is executed, and the program exits 1, independently of the
filesystem. -/
theorem C7_usage_error (σ : FS) (argv : List String) (exec : List String → Int)
    (h : argv.length < 3) :
    lintMain σ argv exec =
      { commands := [], output := [lintUsage], exitCode := 1 } := by
  simp only [lintMain]
  rw [if_pos h]

/-- Witness for C7: zero positional arguments, and one positional argument. -/
theorem C7_usage_error_witness :
    lintMain [] ["run-dscanner.py"] (fun _ => 0) =
        { commands := [], output := [lintUsage], exitCode := 1 } ∧
    lintMain [] ["run-dscanner.py", "/r"] (fun _ => 7) =
        { commands := [], output := [lintUsage], exitCode := 1 } :=
  ⟨C7_usage_error [] ["run-dscanner.py"] (fun _ => 0) (by decide),
   C7_usage_error [] ["run-dscanner.py", "/r"] (fun _ => 7) (by decide)⟩

/-- Claim C9: the version probe result does not interfere: two runs whose
external tool behaves identically on the assembled main command — however
differently the version probe behaves — produce the same commands, the same
output and the same exit status. -/
theorem C9_version_probe_noninterference (σ : FS) (sr cfg : String)
    (exec1 exec2 : List String → Int)
    (h : exec1 (dscannerCmd σ sr cfg) = exec2 (dscannerCmd σ sr cfg)) :
    lintRun σ sr cfg exec1 = lintRun σ sr cfg exec2 := by
  simp only [lintRun]
  rw [h]

/-- Witness for C9: one tool whose version probe exits 5, one whose probe
exits 0, agreeing on the main command; the runs coincide. -/
theorem C9_version_probe_noninterference_witness :
    lintRun [] "/r" "cfg" (fun _ => 0) =
      lintRun [] "/r" "cfg" (fun c => if c = versionProbeCmd then 5 else 0) :=
  C9_version_probe_noninterference [] "/r" "cfg" _ _ (by decide)

/-! ## Lint Invoker: conditional system candidates (C5) -/

theorem string_data_inj {s t : String} (h : s.data = t.data) : s = t := by
  cases s
  cases t
  exact congrArg String.mk h

theorem string_append_left_cancel {a x y : String} (h : a ++ x = a ++ y) :
    x = y := by
  have hd := congrArg String.data h
  rw [String.data_append, String.data_append] at hd
  exact string_data_inj (List.append_cancel_left hd)

theorem lastChar_pyJoin_src (sr : String) : lastChar (pyJoin sr "src") = some 'c' := by
  unfold pyJoin
  rw [if_neg (by decide : ¬ (strStartsWith "src" "/" = true))]
  split
  · exact lastChar_append sr "src" (by decide)
  · exact lastChar_append (sr ++ "/") "src" (by decide)

theorem ldc_lastChar (σ : FS) (d : String) (h : d ∈ ldcIncludeDirs σ) :
    lastChar d = some '/' := by
  unfold ldcIncludeDirs at h
  rw [List.mem_append] at h
  rcases h with h | h <;> rw [List.mem_map] at h <;> obtain ⟨e, -, rfl⟩ := h <;>
    exact lastChar_append _ "/" (by decide)

/-- A flag whose directory part cannot come from the local, project-src, LDC
or build segments sits in the include list exactly when the probed segment
contains it. -/
theorem flag_mem_iff_probed (σ : FS) (sr t : String)
    (hbn : ((basenameOf t == "src") || (basenameOf t == "source")) = false)
    (hlc : lastChar t ≠ some 'c')
    (hls : lastChar t ≠ some '/') :
    (("-I" ++ t) ∈ find_include_dirs σ sr ↔ t ∈ probedIncludeDirs σ) := by
  unfold find_include_dirs
  constructor
  · intro h
    rw [List.mem_map] at h
    obtain ⟨x, hx, heq⟩ := h
    have hxt : x = t := string_append_left_cancel heq
    subst hxt
    simp only [List.mem_append] at hx
    rcases hx with ((((hl | hsrc) | hp) | hldc) | hb)
    · exact absurd (List.mem_filter.mp hl).2 (by simp [hbn])
    · rw [List.mem_singleton] at hsrc
      exact absurd (hsrc ▸ lastChar_pyJoin_src sr) hlc
    · exact hp
    · exact absurd (ldc_lastChar σ x hldc) hls
    · rw [List.mem_cons, List.mem_singleton] at hb
      rcases hb with hb | hb
      · exact absurd (hb ▸ lastChar_append _ "/girepo/" (by decide)) hls
      · exact absurd (hb ▸ lastChar_append _ "/src/" (by decide)) hls
  · intro h
    rw [List.mem_map]
    refine ⟨t, ?_, rfl⟩
    simp only [List.mem_append]
    exact Or.inl (Or.inl (Or.inr h))

/-- The probed segment decomposed by the two existence checks. -/
theorem probedIncludeDirs_eq (σ : FS) :
    probedIncludeDirs σ =
      (if os_isdir σ "/usr/include/d/glibd-2" = true
        then ["/usr/include/d/glibd-2"] else []) ++
      (if os_isdir σ "/usr/local/include/d/glibd-2" = true
        then ["/usr/local/include/d/glibd-2"] else []) := by
  have e1 : pyJoin "/usr/include/d/" "glibd-2" = "/usr/include/d/glibd-2" := by decide
  have e2 : pyJoin "/usr/local/include/d/" "glibd-2" = "/usr/local/include/d/glibd-2" := by
    decide
  unfold probedIncludeDirs extra_inc incRoots
  simp only [List.flatMap_cons, List.flatMap_nil, List.append_nil,
    List.filterMap_cons, List.filterMap_nil, e1, e2]
  by_cases h1 : os_isdir σ "/usr/include/d/glibd-2" = true <;>
    by_cases h2 : os_isdir σ "/usr/local/include/d/glibd-2" = true <;>
      simp [h1, h2]

/-- Claim C5: each probed system candidate appears in the include-flag list
exactly when it exists on disk as a directory; non-existent combinations are
silently excluded. -/
theorem C5_probed_conditional (σ : FS) (sr : String) :
    (("-I" ++ "/usr/include/d/glibd-2") ∈ find_include_dirs σ sr ↔
      os_isdir σ "/usr/include/d/glibd-2" = true) ∧
    (("-I" ++ "/usr/local/include/d/glibd-2") ∈ find_include_dirs σ sr ↔
      os_isdir σ "/usr/local/include/d/glibd-2" = true) := by
  have h1 := flag_mem_iff_probed σ sr "/usr/include/d/glibd-2"
    (by decide) (by decide) (by decide)
  have h2 := flag_mem_iff_probed σ sr "/usr/local/include/d/glibd-2"
    (by decide) (by decide) (by decide)
  have hne : ("/usr/include/d/glibd-2" : String) ≠ "/usr/local/include/d/glibd-2" := by
    decide
  constructor
  · refine h1.trans ?_
    rw [probedIncludeDirs_eq σ]
    by_cases hd1 : os_isdir σ "/usr/include/d/glibd-2" = true <;>
      by_cases hd2 : os_isdir σ "/usr/local/include/d/glibd-2" = true <;>
        simp [hd1, hd2, hne]
  · refine h2.trans ?_
    rw [probedIncludeDirs_eq σ]
    by_cases hd1 : os_isdir σ "/usr/include/d/glibd-2" = true <;>
      by_cases hd2 : os_isdir σ "/usr/local/include/d/glibd-2" = true <;>
        simp [hd1, hd2, hne.symm]

/-! ## Lint Invoker: subprojects candidates (C4, C10) -/

theorem takeWhile_append_all {α : Type} (p : α → Bool) :
    ∀ (l₁ l₂ : List α), (∀ a ∈ l₁, p a = true) →
      (l₁ ++ l₂).takeWhile p = l₁ ++ l₂.takeWhile p
  | [], _, _ => rfl
  | a :: l₁, l₂, h => by
    have ha : p a = true := h a (List.mem_cons_self a l₁)
    simp only [List.cons_append, List.takeWhile_cons, ha, if_true]
    rw [takeWhile_append_all p l₁ l₂ (fun b hb => h b (List.mem_cons_of_mem a hb))]

/-- Basename extraction: for any string whose character data ends in a slash
followed by a slash-free tail is that tail. -/
theorem basenameOf_of_data (s c : String) (x : List Char)
    (hs : s.data = x ++ '/' :: c.data) (hc : '/' ∉ c.data) : basenameOf s = c := by
  unfold basenameOf
  have hall : ∀ a ∈ c.data.reverse, (a != '/') = true := by
    intro a ha
    rw [List.mem_reverse] at ha
    simp only [bne_iff_ne, ne_eq]
    exact fun h => hc (h ▸ ha)
  rw [hs, List.reverse_append, List.reverse_cons, List.append_assoc,
    takeWhile_append_all _ _ _ hall]
  have hstop : List.takeWhile (fun ch => ch != '/') ([('/' : Char)] ++ x.reverse) = [] := by
    simp [List.takeWhile_cons]
  rw [hstop, List.append_nil, List.reverse_reverse]

/-- Claim C10 (implicit): the subprojects filter checks only the base name,
never the entry type.  A regular (non-directory) file named `src` two levels
below `contrib/subprojects` is turned into an include flag, although
`os.path.isdir` is false for it — unlike the probed system candidates. -/
theorem C10_file_candidate_added :
    (⟨["r", "contrib", "subprojects", "glib", "src"], false⟩ : FSEntry) ∈
      ([⟨["r", "contrib", "subprojects", "glib", "src"], false⟩] : FS) ∧
    os_isdir [⟨["r", "contrib", "subprojects", "glib", "src"], false⟩]
      "/r/contrib/subprojects/glib/src" = false ∧
    ("-I" ++ "/r/contrib/subprojects/glib/src") ∈
      find_include_dirs [⟨["r", "contrib", "subprojects", "glib", "src"], false⟩] "/r" := by
  refine ⟨by decide, by decide, by decide⟩

/-- Claim C4, counterexample: an entry directly below `contrib/subprojects`
(depth one) whose base name is `src` is *not* added: the non-recursive
`**/*` glob only matches entries at depth exactly two, so the candidate
list stays empty and the claim as stated fails. -/
theorem C4_subprojects_counterexample :
    (⟨["r", "contrib", "subprojects", "src"], true⟩ : FSEntry) ∈
      ([⟨["r", "contrib", "subprojects", "src"], true⟩] : FS) ∧
    basenameOf "/r/contrib/subprojects/src" = "src" ∧
    find_local_include_dirs [⟨["r", "contrib", "subprojects", "src"], true⟩] "/r" = [] := by
  refine ⟨by decide, by decide, by decide⟩

/-- Claim C4, amended: a name is a subprojects include candidate iff some
filesystem entry sits *exactly two* (non-hidden) levels below
`contrib/subprojects` under the source root and its final component is
exactly `src` or `source`; no other entry contributes.  (Entries at depth
one, or three and more, are never matched by the non-recursive glob.) -/
theorem C4_subprojects_amended (σ : FS) (sr d : String)
    (hval : ∀ e ∈ σ, ∀ c ∈ e.path, '/' ∉ c.data) :
    d ∈ find_local_include_dirs σ sr ↔
      ∃ e ∈ σ, ∃ c1 c2 : String,
        e.path = pathComps sr ++ ["contrib", "subprojects", c1, c2] ∧
        startsWithDot c1 = false ∧ startsWithDot c2 = false ∧
        (c2 = "src" ∨ c2 = "source") ∧
        d = sr ++ "/" ++ joinComps ["contrib", "subprojects", c1, c2] := by
  unfold find_local_include_dirs
  constructor
  · intro h
    rw [List.mem_filter] at h
    obtain ⟨hmem, hpred⟩ := h
    rw [List.mem_map] at hmem
    obtain ⟨e, hef, rfl⟩ := hmem
    rw [List.mem_filter] at hef
    obtain ⟨heσ, hmatch⟩ := hef
    unfold matchSubproj at hmatch
    simp only [Bool.and_eq_true, decide_eq_true_eq] at hmatch
    obtain ⟨⟨htake, hlen⟩, hall⟩ := hmatch
    obtain ⟨c1, c2, hdrop⟩ := List.length_eq_two.mp hlen
    have hpath : e.path = pathComps sr ++ ["contrib", "subprojects", c1, c2] := by
      conv_lhs => rw [← List.take_append_drop
        (pathComps sr ++ ["contrib", "subprojects"]).length e.path]
      rw [htake, hdrop, List.append_assoc]
      rfl
    have hdropn : e.path.drop (pathComps sr).length =
        ["contrib", "subprojects", c1, c2] := by
      rw [hpath, List.drop_left]
    rw [hdrop] at hall
    simp only [List.all_cons, List.all_nil, Bool.and_true, Bool.and_eq_true,
      Bool.not_eq_true'] at hall
    have hname : subprojName sr e.path =
        sr ++ "/" ++ joinComps ["contrib", "subprojects", c1, c2] := by
      unfold subprojName
      rw [hdropn]
    have hc2 : '/' ∉ c2.data := hval e heσ c2 (by rw [hpath]; simp)
    have hbase : basenameOf (subprojName sr e.path) = c2 := by
      rw [hname]
      refine basenameOf_of_data _ c2
        (sr.data ++ '/' :: ("contrib".data ++ '/' ::
          ("subprojects".data ++ '/' :: c1.data))) ?_ hc2
      simp [String.data_append, joinComps, List.append_assoc]
    rw [hbase] at hpred
    simp only [Bool.or_eq_true, beq_iff_eq] at hpred
    exact ⟨e, heσ, c1, c2, hpath, hall.1, hall.2, hpred, hname⟩
  · rintro ⟨e, heσ, c1, c2, hpath, hh1, hh2, hc2sp, rfl⟩
    rw [List.mem_filter]
    have hpath2 : e.path = (pathComps sr ++ ["contrib", "subprojects"]) ++ [c1, c2] := by
      rw [hpath, List.append_assoc]
      rfl
    have hdropn : e.path.drop (pathComps sr).length =
        ["contrib", "subprojects", c1, c2] := by
      rw [hpath, List.drop_left]
    constructor
    · rw [List.mem_map]
      refine ⟨e, ?_, ?_⟩
      · rw [List.mem_filter]
        refine ⟨heσ, ?_⟩
        unfold matchSubproj
        simp only [Bool.and_eq_true, decide_eq_true_eq]
        refine ⟨⟨?_, ?_⟩, ?_⟩
        · rw [hpath2, List.take_left]
        · rw [hpath2, List.drop_left]
          rfl
        · rw [hpath2, List.drop_left]
          simp [hh1, hh2]
      · unfold subprojName
        rw [hdropn]
    · have hc2 : '/' ∉ c2.data := hval e heσ c2 (by rw [hpath]; simp)
      have hbase : basenameOf (sr ++ "/" ++ joinComps ["contrib", "subprojects", c1, c2])
          = c2 := by
        refine basenameOf_of_data _ c2
          (sr.data ++ '/' :: ("contrib".data ++ '/' ::
            ("subprojects".data ++ '/' :: c1.data))) ?_ hc2
        simp [String.data_append, joinComps, List.append_assoc]
      rw [hbase]
      rcases hc2sp with rfl | rfl <;> decide

/-- Witness for the amended C4 at a concrete filesystem. -/
theorem C4_subprojects_amended_witness :
    "/r/contrib/subprojects/glib/src" ∈ find_local_include_dirs
      [⟨["r", "contrib", "subprojects", "glib", "src"], true⟩] "/r" :=
  (C4_subprojects_amended [⟨["r", "contrib", "subprojects", "glib", "src"], true⟩]
      "/r" "/r/contrib/subprojects/glib/src" (by decide)).mpr
    ⟨⟨["r", "contrib", "subprojects", "glib", "src"], true⟩, by decide, "glib", "src",
      by decide, by decide, by decide, Or.inl rfl, by decide⟩
